import Mathlib

/-!
Verification of the batch-collation and training-loop orchestration logic of
a BERT emotion-classification trainer (train_classification.py), against its
natural-language specification.

The source is shallowly embedded: token ids are integers (ℤ), losses and
metric values are rationals (ℚ), Python lists are Lean lists.  The in-place
mutation questions about the collator are settled over an explicit heap of
lists (Heap below); everything else is pure state passing.
-/

namespace BertClassification

/-- Embeds the ClassificationBatchFunction collator object
(train_classification.py, lines 30-56).  The constructor defaults of
cls_idx / sep_idx to pad_idx are modelled by mkCollator below. -/
structure ClassificationBatchFunction where
  max_len : ℕ
  pad_idx : ℤ
  cls_idx : ℤ
  sep_idx : ℤ
deriving DecidableEq, Repr

/-- Constructor semantics (lines 32-36): cls_idx and sep_idx default to
pad_idx when not supplied. -/
def mkCollator (max_len : ℕ) (pad_idx : ℤ) (cls_idx sep_idx : Option ℤ) :
    ClassificationBatchFunction :=
  ⟨max_len, pad_idx, cls_idx.getD pad_idx, sep_idx.getD pad_idx⟩

/-- Python slice sample[-k:]: for k = 0 this is sample[0:] = the whole list;
for 0 < k it keeps the last min(k, len) elements. -/
def pySliceLast (l : List ℤ) (k : ℕ) : List ℤ :=
  if k = 0 then l else l.drop (l.length - k)

/-- Embeds ClassificationBatchFunction.pad (lines 50-56), as a value-level
function: diff = self.max_len - len(sample); if diff > 0 right-pad with
pad_idx, else keep sample[-self.max_len:].  Note the source uses
self.max_len here, not the batch-local max_len of line 42. -/
def ClassificationBatchFunction.pad (c : ClassificationBatchFunction)
    (sample : List ℤ) : List ℤ :=
  if 0 < (c.max_len : ℤ) - (sample.length : ℤ) then
    sample ++ List.replicate (c.max_len - sample.length) c.pad_idx
  else pySliceLast sample c.max_len

/-- The batch-local effective length of line 42:
max_len = min(self.max_len, max([len(i) for i in tokens])).
In the source this local variable is computed but never read afterwards
(pad uses self.max_len). -/
def batchEffectiveLen (c : ClassificationBatchFunction)
    (tokens : List (List ℤ)) : ℕ :=
  min c.max_len ((tokens.map List.length).foldl max 0)

/-- Mask derivation of lines 45-46:
torch.ones_like(tokens).masked_fill(tokens == self.pad_idx, self.pad_idx):
elementwise, positions holding pad_idx are filled with pad_idx (not with a
literal 0), all other positions keep the 1. -/
def maskOf (c : ClassificationBatchFunction) (row : List ℤ) : List ℤ :=
  row.map (fun x => if x = c.pad_idx then c.pad_idx else 1)

/-- Embeds ClassificationBatchFunction.__call__ (lines 38-48) at value
level: unzip the batch, build [cls] + t + [sep] per sample, pad each row,
derive masks, pass labels through.  The batch-local effective length of
line 42 is dead code in the source and therefore does not appear in the
rows. -/
def callCollate (c : ClassificationBatchFunction)
    (batch : List (List ℤ × ℤ)) :
    List (List ℤ) × List (List ℤ) × List ℤ :=
  let tokens := batch.map Prod.fst
  let label := batch.map Prod.snd
  let rows := tokens.map (fun t => c.pad ([c.cls_idx] ++ t ++ [c.sep_idx]))
  (rows, rows.map (maskOf c), label)

/-! ## Heap model of the collator, for the mutation/idempotence claim

Python lists are mutable objects.  pad mutates its argument in place via
sample += [...] when diff > 0, and rebinds the local name to a fresh slice
otherwise; __call__ always hands pad the fresh list [cls] + t + [sep], so
the batch token lists are only ever read.  The heap model makes this
explicit: references are indices into a heap of lists. -/

abbrev Heap := List (List ℤ)

/-- Read the list object a reference points to. -/
def readRef (h : Heap) (r : ℕ) : List ℤ := h.getD r []

/-- Overwrite the list object at a reference (in-place mutation). -/
def writeRef (h : Heap) (r : ℕ) (v : List ℤ) : Heap := h.set r v

/-- Allocate a fresh list object, returning the new heap and its reference. -/
def alloc (h : Heap) (v : List ℤ) : Heap × ℕ := (h ++ [v], h.length)

/-- Heap-level pad (lines 50-56): when diff > 0, sample += pads mutates the
object in place and the same reference is returned; otherwise
sample = sample[-self.max_len:] rebinds to a freshly allocated slice. -/
def padHeap (c : ClassificationBatchFunction) (h : Heap) (r : ℕ) :
    Heap × ℕ :=
  if 0 < (c.max_len : ℤ) - ((readRef h r).length : ℤ) then
    (writeRef h r
      (readRef h r ++ List.replicate (c.max_len - (readRef h r).length) c.pad_idx), r)
  else alloc h (pySliceLast (readRef h r) c.max_len)

/-- One row of __call__ (line 44): the concatenation [cls] + t + [sep]
allocates a fresh list (Python + on lists copies), which is then padded. -/
def callRow (c : ClassificationBatchFunction) (h : Heap) (r : ℕ) :
    Heap × ℕ :=
  let t := readRef h r
  let (h1, fresh) := alloc h ([c.cls_idx] ++ t ++ [c.sep_idx])
  padHeap c h1 fresh

/-- All rows of __call__, left to right over the batch token references. -/
def callRows (c : ClassificationBatchFunction) (h : Heap) :
    List ℕ → Heap × List ℕ
  | [] => (h, [])
  | r :: rs =>
    let p := callRow c h r
    let q := callRows c p.1 rs
    (q.1, p.2 :: q.2)

/-- The tensors __call__ returns (lines 43-48), materialised from the heap
at return time (torch.tensor copies the values), plus the resulting heap. -/
def collateOutputs (c : ClassificationBatchFunction) (h : Heap)
    (refs : List ℕ) (label : List ℤ) :
    (List (List ℤ) × List (List ℤ) × List ℤ) × Heap :=
  let p := callRows c h refs
  let rows := p.2.map (readRef p.1)
  ((rows, rows.map (maskOf c), label), p.1)

/-! ## Training loop: gradient accumulation, logging, global step

Embeds the inner per-epoch loop of train (lines 167-233) at the level of
the bookkeeping the claims are about.  The model forward pass is abstracted
as a micro-batch record carrying the scalar loss and the micro-batch
accuracy / macro-averaged F1 computed from the classification report
(lines 177-187).  The loop is instrumented: every optimizer update records
the number of backward accumulations since the previous update and the
running loss total at the update, and every fired log records the step tag
global_step + 1 and the reported loss value. -/

/-- The configuration flags the inner loop reads. -/
structure TrainArgs where
  gradient_accumulation_steps : ℕ
  logging_step : ℕ
deriving DecidableEq, Repr

/-- One micro-batch's forward-pass results: loss (line 177) and the
accuracy and macro-averaged F1 extracted from the classification report
(lines 185-187). -/
structure MicroBatch where
  loss : ℚ
  acc : ℚ
  f1 : ℚ
deriving DecidableEq, Repr

/-- The mutable bookkeeping of the inner loop, plus instrumentation. -/
structure TrainState where
  trainLoss : ℚ
  trainAcc : ℚ
  trainF1 : ℚ
  loggingLoss : ℚ
  loggingAcc : ℚ
  loggingF1 : ℚ
  globalStep : ℕ
  backwardsSinceUpdate : ℕ
  /-- per optimizer update: (backward accumulations feeding it,
  running trainLoss at the update). -/
  updates : List (ℕ × ℚ)
  /-- per fired log: (global_step + 1 at the fire, reported loss value). -/
  logs : List (ℕ × ℚ)
deriving DecidableEq, Repr

/-- Initial inner-loop state (lines 159, 164-165). -/
def initTrain : TrainState :=
  { trainLoss := 0, trainAcc := 0, trainF1 := 0
    loggingLoss := 0, loggingAcc := 0, loggingF1 := 0
    globalStep := 0, backwardsSinceUpdate := 0, updates := [], logs := [] }

/-- One iteration of the inner loop at micro-batch index step
(lines 189-233), in source order: divide the contributions by G when G > 1
(lines 190-194), backward and accumulate into the running totals
(lines 196-204), fire the log when (global_step + 1) % logging_step == 0
(lines 206-220, reporting (train_loss - logging_loss) / logging_step and
then moving the logging snapshots up), and perform the optimizer update
when (step + 1) % G == 0 (lines 222-233, incrementing global_step). -/
def microStep (args : TrainArgs) (st : TrainState) (step : ℕ)
    (mb : MicroBatch) : TrainState :=
  let G := args.gradient_accumulation_steps
  let loss := if 1 < G then mb.loss / G else mb.loss
  let acc := if 1 < G then mb.acc / G else mb.acc
  let f1 := if 1 < G then mb.f1 / G else mb.f1
  let st := { st with
    trainLoss := st.trainLoss + loss
    trainAcc := st.trainAcc + acc
    trainF1 := st.trainF1 + f1
    backwardsSinceUpdate := st.backwardsSinceUpdate + 1 }
  let st :=
    if (st.globalStep + 1) % args.logging_step = 0 then
      { st with
        logs := st.logs ++
          [(st.globalStep + 1, (st.trainLoss - st.loggingLoss) / args.logging_step)]
        loggingLoss := st.trainLoss
        loggingAcc := st.trainAcc
        loggingF1 := st.trainF1 }
    else st
  if (step + 1) % G = 0 then
    { st with
      globalStep := st.globalStep + 1
      updates := st.updates ++ [(st.backwardsSinceUpdate, st.trainLoss)]
      backwardsSinceUpdate := 0 }
  else st

/-- Run the inner loop from a given state and micro-batch index over a list
of micro-batches (the for step, batch in enumerate(tr_loader) loop of
line 167). -/
def runFrom (args : TrainArgs) (st : TrainState) (step : ℕ) :
    List MicroBatch → TrainState
  | [] => st
  | mb :: rest => runFrom args (microStep args st step mb) (step + 1) rest

/-- A whole epoch's inner loop from the initial state. -/
def runEpochSteps (args : TrainArgs) (mbs : List MicroBatch) : TrainState :=
  runFrom args initTrain 0 mbs

/-! ## Epoch loop: validation, best loss, checkpointing

Embeds the per-epoch tail of train (lines 240, 256-263) and the final
results record (lines 268-272).  An epoch is summarised by its validation
loss and accuracy; the checkpoint write, the best_val_loss update and the
best_val_acc assignment all happen exactly under val_loss < best_val_loss. -/

/-- One epoch's validation results (line 240). -/
structure EpochResult where
  val_loss : ℚ
  val_acc : ℚ
deriving DecidableEq, Repr

/-- Checkpointing state across epochs.  best_val_acc is Option ℚ because
the source never initialises best_val_acc (line 263 is its only
assignment); none models the name being unbound. -/
structure CkptState where
  best_val_loss : ℚ
  best_val_acc : Option ℚ
  /-- epochs at which a checkpoint write occurred (lines 258-260). -/
  writes : List ℕ
deriving DecidableEq, Repr

/-- Initial checkpoint state: best_val_loss = 1e+9 (line 158),
best_val_acc unassigned, no writes. -/
def initCkpt : CkptState := ⟨10 ^ 9, none, []⟩

/-- The end-of-epoch checkpoint step (lines 256-263): write the checkpoint
and update best_val_loss / best_val_acc exactly when
val_loss < best_val_loss; otherwise nothing happens. -/
def epochStep (st : CkptState) (e : ℕ) (r : EpochResult) : CkptState :=
  if r.val_loss < st.best_val_loss then
    ⟨r.val_loss, some r.val_acc, st.writes ++ [e]⟩
  else st

/-- Run the epoch loop from a state and epoch index. -/
def runEpochs (st : CkptState) (e : ℕ) : List EpochResult → CkptState
  | [] => st
  | r :: rest => runEpochs (epochStep st e r) (e + 1) rest

/-- A full run of the epoch loop (line 162 onward). -/
def ckptRun (rs : List EpochResult) : CkptState := runEpochs initCkpt 0 rs

/-- Best validation loss recorded after the first k epoch boundaries. -/
def bestAfter (rs : List EpochResult) (k : ℕ) : ℚ :=
  (ckptRun (rs.take k)).best_val_loss

/-- Building the final results record (lines 268-272): reading best_val_acc
when it was never assigned raises an unbound-name error in the source,
modelled by none; otherwise the (best loss, best accuracy) row is
appended. -/
def finalResults (st : CkptState) : Option (ℚ × ℚ) :=
  match st.best_val_acc with
  | none => none
  | some a => some (st.best_val_loss, a)

/-! ## Label-list selection -/

/-- Embeds the label-list dispatch of train (lines 69-74): an if / elif
with no else branch, so any other selector leaves label_list unbound and
line 74 raises an unbound-name error before any data loading or training
step; none models that fatal outcome. -/
def selectLabelList (num_label : String) : Option (List String) :=
  if num_label = "multi" then
    some ["공포", "놀람", "분노", "슬픔", "중립", "행복", "혐오"]
  else if num_label = "binary" then
    some ["긍정", "부정"]
  else none

/-! ## Helper lemmas about the collator -/

/-- For a positive configured max length, pad always returns a row of
exactly max_len elements: shorter samples are right-padded up to max_len,
longer ones are cut to their last max_len elements. -/
theorem pad_length (c : ClassificationBatchFunction) (sample : List ℤ)
    (hc : 1 ≤ c.max_len) : (c.pad sample).length = c.max_len := by
  unfold ClassificationBatchFunction.pad
  split
  · rename_i hlt
    have hs : sample.length < c.max_len := by exact_mod_cast sub_pos.mp hlt
    simp [List.length_append, List.length_replicate]
    omega
  · rename_i hge
    have hs : c.max_len ≤ sample.length := by
      have := not_lt.mp hge
      have h2 : (c.max_len : ℤ) ≤ (sample.length : ℤ) := by linarith
      exact_mod_cast h2
    have hk : c.max_len ≠ 0 := by omega
    simp [pySliceLast, hk, List.length_drop]
    omega

/-- On the truncation branch, pad is exactly the tail slice of the sample. -/
theorem pad_eq_drop_of_long (c : ClassificationBatchFunction)
    (sample : List ℤ) (hc : 1 ≤ c.max_len)
    (hlong : c.max_len < sample.length) :
    c.pad sample = sample.drop (sample.length - c.max_len) := by
  unfold ClassificationBatchFunction.pad
  have hcond : ¬ (0 < (c.max_len : ℤ) - (sample.length : ℤ)) := by
    have : (c.max_len : ℤ) < (sample.length : ℤ) := by exact_mod_cast hlong
    omega
  rw [if_neg hcond]
  have hk : c.max_len ≠ 0 := by omega
  simp [pySliceLast, hk]

/-- Dropping a proper prefix preserves the optional last element. -/
theorem getLast?_drop_of_lt (l : List ℤ) (n : ℕ) (hn : n < l.length) :
    (l.drop n).getLast? = l.getLast? := by
  rw [List.getLast?_eq_get?, List.getLast?_eq_get?, List.get?_drop,
    List.length_drop]
  congr 1
  omega

/-! ## C1: batch-relative effective length -/

/-- C1, counterexample: for the batch with the single sample (tokens=[5],
label=0), pad id 0, boundary ids 1 and 2, configured max length 6, the
batch-relative effective length of line 42 is min(6, 1) = 1, but the
collator returns a row of width 6: the token matrix second dimension is the
configured global cap, not the effective length, refuting the claim. -/
theorem c1_counterexample :
    batchEffectiveLen ⟨6, 0, 1, 2⟩ [[5]] = 1 ∧
    ((callCollate ⟨6, 0, 1, 2⟩ [([5], 0)]).1).map List.length = [6] ∧
    (6 : ℕ) ≠ 1 := by decide

/-- C1, amended: the collator pads or truncates every row to the configured
max length (for any positive configured max length), because pad reads
self.max_len; the batch-relative effective length computed on line 42 is
never used. -/
theorem c1_amended_rows_have_configured_width
    (c : ClassificationBatchFunction) (batch : List (List ℤ × ℤ))
    (hc : 1 ≤ c.max_len) :
    ∀ row ∈ (callCollate c batch).1, row.length = c.max_len := by
  intro row hrow
  simp only [callCollate, List.map_map, List.mem_map] at hrow
  obtain ⟨p, _, hval⟩ := hrow
  rw [← hval]
  exact pad_length c _ hc

/-- C1 witness: the amended theorem applied to the counterexample batch. -/
theorem c1_amended_witness :
    1 ≤ (6 : ℕ) ∧ ([1, 5, 2, 0, 0, 0] : List ℤ).length = 6 :=
  ⟨by decide,
    c1_amended_rows_have_configured_width ⟨6, 0, 1, 2⟩ [([5], 0)]
      (by decide) [1, 5, 2, 0, 0, 0] (by decide)⟩

/-! ## C2: attention mask values -/

/-- C2, counterexample: with pad id 3 (boundary ids 1, 2, max length 4) and
the batch [(tokens=[5], label=0)], the output row is [1, 5, 2, 3]; the mask
produced by masked_fill(tokens == pad_idx, self.pad_idx) is [1, 1, 1, 3]:
at the pad position the mask equals the pad id 3, not 0, refuting the claim
for arbitrary pad ids. -/
theorem c2_counterexample :
    (callCollate ⟨4, 3, 1, 2⟩ [([5], 0)]).1 = [[1, 5, 2, 3]] ∧
    (callCollate ⟨4, 3, 1, 2⟩ [([5], 0)]).2.1 = [[1, 1, 1, 3]] ∧
    (3 : ℤ) ≠ 0 := by decide

/-- C2, amended: for every collator configuration (any pad id) and every
batch, each mask row equals its token row with every position holding the
pad id replaced by the pad id itself (the masked_fill value of line 46) and
every other position replaced by 1; consequently the mask is 0 at pad
positions exactly when the pad id is 0. -/
theorem c2_amended_mask_fill (c : ClassificationBatchFunction)
    (batch : List (List ℤ × ℤ)) :
    List.Forall₂
      (fun row mrow =>
        mrow = row.map (fun x : ℤ => if x = c.pad_idx then c.pad_idx else 1))
      (callCollate c batch).1 (callCollate c batch).2.1 := by
  simp only [callCollate]
  rw [List.forall₂_map_right_iff, List.forall₂_same]
  intro x _
  simp [maskOf]

/-! ## C6: end-to-end collator scenario -/

/-- C6: on the batch [(tokens=[5,6,7], label=0), (tokens=[8,9], label=1)]
with pad id 0, boundary-start 1, boundary-end 2 and configured max length
6, the collator returns exactly the specified token matrix, mask matrix and
label vector. -/
theorem c6_end_to_end_scenario :
    callCollate ⟨6, 0, 1, 2⟩ [([5, 6, 7], 0), ([8, 9], 1)] =
      ([[1, 5, 6, 7, 2, 0], [1, 8, 9, 2, 0, 0]],
        [[1, 1, 1, 1, 1, 0], [1, 1, 1, 1, 0, 0]], [0, 1]) := by decide

/-! ## C7: tail truncation -/

/-- C7, counterexample: with pad id 0, boundary ids 1 and 2, configured max
length 10 and the batch [(tokens=[7,8,9], label=0)], the effective length
of line 42 is min(10, 3) = 3 and the marker-extended sequence has length 5,
which exceeds it; yet the output row is the full padded width-10 row, not
the last 3 tokens, refuting the claim read against the batch-relative
effective length. -/
theorem c7_counterexample :
    batchEffectiveLen ⟨10, 0, 1, 2⟩ [[7, 8, 9]] = 3 ∧
    (callCollate ⟨10, 0, 1, 2⟩ [([7, 8, 9], 0)]).1 =
      [[1, 7, 8, 9, 2, 0, 0, 0, 0, 0]] ∧
    ([1, 7, 8, 9, 2, 0, 0, 0, 0, 0] : List ℤ).length ≠ 3 := by decide

/-- C7, amended: for every token sequence whose length after adding the two
boundary markers exceeds the configured max length (positive), the
collator's row keeps exactly the last max_len tokens of the marker-extended
sequence, has length exactly max_len, and retains the boundary-end marker
as its final element.  Truncation is relative to self.max_len, not to the
batch-relative effective length. -/
theorem c7_amended_tail_truncation (c : ClassificationBatchFunction)
    (t : List ℤ) (hc : 1 ≤ c.max_len) (hlong : c.max_len < t.length + 2) :
    c.pad ([c.cls_idx] ++ t ++ [c.sep_idx]) =
      ([c.cls_idx] ++ t ++ [c.sep_idx]).drop (t.length + 2 - c.max_len) ∧
    (c.pad ([c.cls_idx] ++ t ++ [c.sep_idx])).length = c.max_len ∧
    (c.pad ([c.cls_idx] ++ t ++ [c.sep_idx])).getLast? = some c.sep_idx := by
  have hlen : ([c.cls_idx] ++ t ++ [c.sep_idx]).length = t.length + 2 := by
    simp
  have hlong2 : c.max_len < ([c.cls_idx] ++ t ++ [c.sep_idx]).length := by
    rw [hlen]; exact hlong
  have hdrop := pad_eq_drop_of_long c ([c.cls_idx] ++ t ++ [c.sep_idx]) hc hlong2
  refine ⟨by rw [hdrop, hlen], pad_length c _ hc, ?_⟩
  rw [hdrop, getLast?_drop_of_lt _ _ (by omega)]
  rw [List.append_assoc, List.singleton_append, ← List.cons_append]
  exact List.getLast?_concat _

/-- C7 witness: the amended theorem at max length 4 and tokens
[7,8,9,10,11] (marker-extended length 7): the row is the last four
elements [9, 10, 11, 2], of length 4, ending in the boundary-end id 2. -/
theorem c7_amended_witness :
    1 ≤ (4 : ℕ) ∧ (4 : ℕ) < 5 + 2 ∧
    ((ClassificationBatchFunction.mk 4 0 1 2).pad
        ([1] ++ [7, 8, 9, 10, 11] ++ [2]) =
      ([1] ++ [7, 8, 9, 10, 11] ++ [2]).drop (5 + 2 - 4) ∧
    ((ClassificationBatchFunction.mk 4 0 1 2).pad
        ([1] ++ [7, 8, 9, 10, 11] ++ [2])).length = 4 ∧
    ((ClassificationBatchFunction.mk 4 0 1 2).pad
        ([1] ++ [7, 8, 9, 10, 11] ++ [2])).getLast? = some 2) :=
  ⟨by decide, by decide,
    c7_amended_tail_truncation ⟨4, 0, 1, 2⟩ [7, 8, 9, 10, 11]
      (by decide) (by decide)⟩

/-! ## Helper lemmas about the training loop -/

/-- With gradient accumulation factor 1 the optimizer updates after every
micro-batch, so the global step advances by one per iteration. -/
theorem microStep_g1_globalStep (ls : ℕ) (st : TrainState) (step : ℕ)
    (mb : MicroBatch) :
    (microStep ⟨1, ls⟩ st step mb).globalStep = st.globalStep + 1 := by
  by_cases hfire : (st.globalStep + 1) % ls = 0 <;>
    simp [microStep, hfire, Nat.mod_one]

/-- With gradient accumulation factor 1 a log entry is appended exactly
when (global_step + 1) % logging_step == 0 holds at the iteration. -/
theorem microStep_g1_logs_length (ls : ℕ) (st : TrainState) (step : ℕ)
    (mb : MicroBatch) :
    (microStep ⟨1, ls⟩ st step mb).logs.length =
      st.logs.length + (if (st.globalStep + 1) % ls = 0 then 1 else 0) := by
  by_cases hfire : (st.globalStep + 1) % ls = 0 <;>
    simp [microStep, hfire, Nat.mod_one]

/-- Counting fired logs under gradient accumulation factor 1: starting from
a state whose global step equals the loop index, running n further
micro-batches fires exactly (step + n) / ls - step / ls logs. -/
theorem runFrom_g1_logs_count (ls : ℕ) (mbs : List MicroBatch)
    (st : TrainState) (step : ℕ) (hst : st.globalStep = step) :
    (runFrom ⟨1, ls⟩ st step mbs).logs.length =
      st.logs.length + ((step + mbs.length) / ls - step / ls) := by
  induction mbs generalizing st step with
  | nil => simp [runFrom]
  | cons mb rest ih =>
    rw [runFrom, ih _ _ (by rw [microStep_g1_globalStep, hst]),
      microStep_g1_logs_length, hst]
    have harith : step + (mb :: rest).length = step + 1 + rest.length := by
      simp; omega
    rw [harith]
    have hsd := Nat.succ_div step ls
    have hmono : (step + 1) / ls ≤ (step + 1 + rest.length) / ls :=
      Nat.div_le_div_right (by omega)
    by_cases hd : ls ∣ (step + 1)
    · have hm : (step + 1) % ls = 0 := Nat.mod_eq_zero_of_dvd hd
      rw [if_pos hm, if_pos hd] at *
      omega
    · have hm : ¬ (step + 1) % ls = 0 := fun hh => hd (Nat.dvd_of_mod_eq_zero hh)
      rw [if_neg hm, if_neg hd] at *
      omega

/-! ## C3: gradient accumulation scenario -/

/-- C3: with gradient accumulation factor G = 2 (and logging_step 1) over 4
micro-batches each yielding loss L, accuracy a and macro-F1 f, the inner
loop performs exactly 2 optimizer updates, each fed by exactly 2 backward
accumulations, the per-micro-batch contributions are divided by G = 2
before accumulating (so the running totals end at 2L, a and f doubled over
4 halved contributions: 4 * (L / 2) = 2 * L), and the running loss total
recorded at the two consecutive optimizer updates is L then 2L: the loss
delta per global step is exactly L, not 2L or L/2. -/
theorem c3_grad_accum_two_updates (L a f : ℚ) :
    (runEpochSteps ⟨2, 1⟩ (List.replicate 4 ⟨L, a, f⟩)).updates =
      [(2, L), (2, 2 * L)] ∧
    (runEpochSteps ⟨2, 1⟩ (List.replicate 4 ⟨L, a, f⟩)).trainLoss = 2 * L ∧
    (runEpochSteps ⟨2, 1⟩ (List.replicate 4 ⟨L, a, f⟩)).trainAcc = 2 * a ∧
    (runEpochSteps ⟨2, 1⟩ (List.replicate 4 ⟨L, a, f⟩)).trainF1 = 2 * f := by
  norm_num [runEpochSteps, runFrom, microStep, initTrain]
  refine ⟨by ring, by ring, by ring⟩

/-! ## C4: logging cadence -/

/-- C4, counterexample: with gradient accumulation factor 2 and
logging_step 1, a 2-micro-batch epoch performs exactly one optimizer update
(final global step 1) yet fires the metric log twice, both fires tagged
with global step 1: the logging action fires more than once per global step
when G > 1, refuting the claim. -/
theorem c4_counterexample :
    ((runEpochSteps ⟨2, 1⟩ (List.replicate 2 ⟨1, 0, 0⟩)).logs).map Prod.fst =
      [1, 1] ∧
    (runEpochSteps ⟨2, 1⟩ (List.replicate 2 ⟨1, 0, 0⟩)).globalStep = 1 ∧
    ([1, 1] : List ℕ).length ≠ 1 := by decide

/-- C4, amended: the logging check runs once per micro-batch and fires
exactly when (global_step + 1) % logging_step == 0 at that micro-batch.
With gradient accumulation factor 1 the global step equals the micro-batch
index, so over an epoch of n micro-batches the log fires exactly
n / logging_step times, once every logging_step global steps; with factor
G > 1 the same global step is seen by G consecutive micro-batches, so a
qualifying global step fires the log up to G times (see the
counterexample).  Each fired log reports the running-total delta since the
previous log divided by logging_step, as the second conjunct shows for an
epoch of four micro-batches with losses L1..L4 and logging_step 2: the two
fired logs report (L1 + L2) / 2 and (L3 + L4) / 2 at global-step tags 2 and
4. -/
theorem c4_amended_logging_cadence :
    (∀ ls : ℕ, 0 < ls → ∀ mbs : List MicroBatch,
      (runEpochSteps ⟨1, ls⟩ mbs).logs.length = mbs.length / ls) ∧
    (∀ L1 L2 L3 L4 : ℚ,
      (runEpochSteps ⟨1, 2⟩
          [⟨L1, 0, 0⟩, ⟨L2, 0, 0⟩, ⟨L3, 0, 0⟩, ⟨L4, 0, 0⟩]).logs =
        [(2, (L1 + L2) / 2), (4, (L3 + L4) / 2)]) := by
  constructor
  · intro ls _ mbs
    have h := runFrom_g1_logs_count ls mbs initTrain 0 rfl
    simpa [runEpochSteps, initTrain] using h
  · intro L1 L2 L3 L4
    norm_num [runEpochSteps, runFrom, microStep, initTrain]
    ring

/-- C4 witness: the amended count applied at logging_step 2 over 5
micro-batches with gradient accumulation factor 1: exactly 5 / 2 = 2 logs
fire. -/
theorem c4_amended_witness :
    0 < 2 ∧
    (runEpochSteps ⟨1, 2⟩ (List.replicate 5 ⟨1, 0, 0⟩)).logs.length = 2 :=
  ⟨by decide,
    c4_amended_logging_cadence.1 2 (by decide) (List.replicate 5 ⟨1, 0, 0⟩)⟩

/-! ## Helper lemmas about the epoch/checkpoint loop -/

/-- The epoch loop splits over concatenation of epoch-result lists. -/
theorem runEpochs_append (st : CkptState) (e : ℕ)
    (l l' : List EpochResult) :
    runEpochs st e (l ++ l') = runEpochs (runEpochs st e l) (e + l.length) l' := by
  induction l generalizing st e with
  | nil => simp [runEpochs]
  | cons r rest ih =>
    rw [show (r :: rest) ++ l' = r :: (rest ++ l') from rfl]
    rw [show runEpochs st e (r :: (rest ++ l')) =
      runEpochs (epochStep st e r) (e + 1) (rest ++ l') from rfl]
    rw [show runEpochs st e (r :: rest) =
      runEpochs (epochStep st e r) (e + 1) rest from rfl]
    rw [ih]
    congr 1
    simp only [List.length_cons]
    omega

/-- The end-of-epoch step never increases the recorded best loss. -/
theorem epochStep_best_le (st : CkptState) (e : ℕ) (r : EpochResult) :
    (epochStep st e r).best_val_loss ≤ st.best_val_loss := by
  unfold epochStep
  split
  · exact le_of_lt (by assumption)
  · exact le_refl _

/-- Context-generalised characterisation of the checkpoint-write log: the
writes performed over a list of epochs are exactly the epochs at which the
validation loss strictly undercuts the best loss recorded just before that
epoch, in order. -/
theorem runEpochs_writes (rs : List EpochResult) (st : CkptState) (e : ℕ) :
    (runEpochs st e rs).writes = st.writes ++
      (((List.range rs.length).filter (fun i =>
        decide ((rs.getD i ⟨0, 0⟩).val_loss <
          (runEpochs st e (rs.take i)).best_val_loss))).map (e + ·)) := by
  induction rs generalizing st e with
  | nil => simp [runEpochs]
  | cons r rest ih =>
    rw [show runEpochs st e (r :: rest) =
      runEpochs (epochStep st e r) (e + 1) rest from rfl]
    rw [ih]
    rw [List.length_cons, List.range_succ_eq_map, List.filter_cons,
      List.filter_map]
    have hQ : ((fun i => decide (((r :: rest).getD i ⟨0, 0⟩).val_loss <
          (runEpochs st e ((r :: rest).take i)).best_val_loss)) ∘ Nat.succ) =
        (fun i => decide ((rest.getD i ⟨0, 0⟩).val_loss <
          (runEpochs (epochStep st e r) (e + 1) (rest.take i)).best_val_loss)) :=
      rfl
    rw [hQ]
    have hfun : ((fun x => e + x) ∘ Nat.succ) = (fun x => e + 1 + x) := by
      funext x
      simp [Function.comp]
      omega
    by_cases h0 : r.val_loss < st.best_val_loss
    · have hc : (decide (((r :: rest).getD 0 ⟨0, 0⟩).val_loss <
          (runEpochs st e ((r :: rest).take 0)).best_val_loss)) = true :=
        decide_eq_true h0
      rw [if_pos hc]
      have hw : (epochStep st e r).writes = st.writes ++ [e] := by
        simp [epochStep, h0]
      rw [hw, List.map_cons, List.map_map, hfun, List.append_assoc,
        List.singleton_append]
      simp
    · have hc : (decide (((r :: rest).getD 0 ⟨0, 0⟩).val_loss <
          (runEpochs st e ((r :: rest).take 0)).best_val_loss)) = false :=
        decide_eq_false h0
      rw [if_neg (by simp only [hc]; simp)]
      have hw : (epochStep st e r).writes = st.writes := by
        simp [epochStep, h0]
      rw [hw, List.map_map, hfun]

/-- If no epoch strictly undercuts the current best loss, the checkpoint
state does not move at all. -/
theorem runEpochs_no_improvement (rs : List EpochResult)
    (b : ℚ) (acc : Option ℚ) (w : List ℕ) (e : ℕ)
    (hall : ∀ r ∈ rs, b ≤ r.val_loss) :
    runEpochs ⟨b, acc, w⟩ e rs = ⟨b, acc, w⟩ := by
  induction rs generalizing e with
  | nil => rfl
  | cons r rest ih =>
    have hr : ¬ r.val_loss < b := not_lt.mpr (hall r (by simp))
    rw [show runEpochs ⟨b, acc, w⟩ e (r :: rest) =
      runEpochs (epochStep ⟨b, acc, w⟩ e r) (e + 1) rest from rfl]
    rw [show epochStep ⟨b, acc, w⟩ e r = ⟨b, acc, w⟩ by simp [epochStep, hr]]
    exact ih (e + 1) (fun x hx => hall x (by simp [hx]))

/-! ## C5: checkpoint monotonicity and write policy -/

/-- C5: across a full run, the recorded best validation loss is
non-increasing after every epoch boundary, and the checkpoint writes are
exactly the epochs whose validation loss is strictly below the best
recorded before that epoch (initially the 1e+9 sentinel); at all other
epochs no write occurs. -/
theorem c5_checkpoint_policy (rs : List EpochResult) :
    (∀ k : ℕ, bestAfter rs (k + 1) ≤ bestAfter rs k) ∧
    (ckptRun rs).writes = (List.range rs.length).filter (fun k =>
      decide ((rs.getD k ⟨0, 0⟩).val_loss < bestAfter rs k)) := by
  constructor
  · intro k
    unfold bestAfter ckptRun
    rw [List.take_succ, runEpochs_append]
    cases hk : rs[k]? with
    | none => simp [runEpochs]
    | some r =>
      simp only [Option.toList]
      rw [show runEpochs (runEpochs initCkpt 0 (rs.take k)) (0 + (rs.take k).length) [r] =
        epochStep (runEpochs initCkpt 0 (rs.take k)) (0 + (rs.take k).length) r from rfl]
      exact epochStep_best_le _ _ _
  · have h := runEpochs_writes rs initCkpt 0
    unfold ckptRun bestAfter ckptRun
    rw [h]
    simp [initCkpt]

/-- C5 is universally quantified over data only; still, a concrete run:
validation losses 3, 5, 2 give writes at epochs 0 and 2 and best losses
1e+9, 3, 3, 2 after successive boundaries. -/
theorem c5_checkpoint_policy_witness :
    (ckptRun [⟨3, 1⟩, ⟨5, 2⟩, ⟨2, 3⟩]).writes = [0, 2] ∧
    bestAfter [⟨3, 1⟩, ⟨5, 2⟩, ⟨2, 3⟩] 1 ≤ bestAfter [⟨3, 1⟩, ⟨5, 2⟩, ⟨2, 3⟩] 0 :=
  ⟨by decide, (c5_checkpoint_policy [⟨3, 1⟩, ⟨5, 2⟩, ⟨2, 3⟩]).1 0⟩

/-! ## C10: best accuracy never assigned -/

/-- C10: when no epoch's validation loss is strictly below the 1e+9
sentinel (zero epochs run, or every epoch's loss at least 1e+9), the best
validation accuracy is never assigned, and building the final results
record fails (an unbound-name error in the source) instead of producing a
row. -/
theorem c10_best_acc_unassigned (rs : List EpochResult)
    (hall : ∀ r ∈ rs, (10 : ℚ) ^ 9 ≤ r.val_loss) :
    (ckptRun rs).best_val_acc = none ∧ finalResults (ckptRun rs) = none := by
  have h := runEpochs_no_improvement rs (10 ^ 9) none [] 0 hall
  unfold ckptRun initCkpt
  rw [h]
  exact ⟨rfl, rfl⟩

/-- C10 witness: a one-epoch run whose validation loss 2e+9 is at least the
sentinel: no results row is produced. -/
theorem c10_witness :
    (∀ r ∈ [(⟨2 * 10 ^ 9, 1⟩ : EpochResult)], (10 : ℚ) ^ 9 ≤ r.val_loss) ∧
    finalResults (ckptRun [⟨2 * 10 ^ 9, 1⟩]) = none :=
  ⟨by intro r hr; simp at hr; rw [hr]; norm_num,
    (c10_best_acc_unassigned [⟨2 * 10 ^ 9, 1⟩]
      (by intro r hr; simp at hr; rw [hr]; norm_num)).2⟩

/-! ## C9: unknown label-set selector -/

/-- C9: for every label-set selector other than multi and binary, no label
list is assigned, so the training entry point fails fatally (unbound name
at line 74) before any data loading or training step. -/
theorem c9_unknown_label_selector (s : String)
    (h1 : s ≠ "multi") (h2 : s ≠ "binary") :
    selectLabelList s = none := by
  simp [selectLabelList, h1, h2]

/-- C9 witness: the selector ternary matches neither branch. -/
theorem c9_witness :
    ("ternary" ≠ "multi") ∧ ("ternary" ≠ "binary") ∧
    selectLabelList "ternary" = none :=
  ⟨by decide, by decide,
    c9_unknown_label_selector "ternary" (by decide) (by decide)⟩

/-! ## Helper lemmas about the heap model -/

/-- Allocation does not disturb existing objects. -/
theorem readRef_append_left (h : Heap) (v : List ℤ) (i : ℕ)
    (hi : i < h.length) : readRef (h ++ [v]) i = readRef h i := by
  unfold readRef
  exact List.getD_append _ _ _ _ hi

/-- A freshly allocated reference reads back the allocated value. -/
theorem readRef_append_self (h : Heap) (v : List ℤ) :
    readRef (h ++ [v]) h.length = v := by
  unfold readRef
  rw [List.getD_append_right _ _ _ _ (le_refl _)]
  simp

/-- In-place mutation of one object leaves the others unchanged. -/
theorem readRef_writeRef_ne (h : Heap) (r i : ℕ) (v : List ℤ)
    (hne : i ≠ r) : readRef (writeRef h r v) i = readRef h i := by
  unfold readRef writeRef
  rw [List.getD_eq_getD_get?, List.getD_eq_getD_get?,
    List.get?_set_ne _ _ (fun hh => hne hh.symm)]

/-- In-place mutation of a live object reads back the new value. -/
theorem readRef_writeRef_self (h : Heap) (r : ℕ) (v : List ℤ)
    (hr : r < h.length) : readRef (writeRef h r v) r = v := by
  unfold readRef writeRef
  have hlen : r < (h.set r v).length := by simpa using hr
  rw [List.getD_eq_getElem _ _ hlen]
  simp [List.getElem_set]

/-- One collator row built from a valid token reference: the produced row
object holds exactly the value-level pad of [cls] + t + [sep], every
pre-existing object (in particular every batch token list) is untouched,
the heap only grows, and the produced reference is live. -/
theorem callRow_spec (c : ClassificationBatchFunction) (h : Heap) (r : ℕ)
    (_hr : r < h.length) :
    readRef (callRow c h r).1 (callRow c h r).2 =
      c.pad ([c.cls_idx] ++ readRef h r ++ [c.sep_idx]) ∧
    (∀ i, i < h.length → readRef (callRow c h r).1 i = readRef h i) ∧
    h.length < (callRow c h r).1.length ∧
    (callRow c h r).2 < (callRow c h r).1.length := by
  have hread : readRef (h ++ [[c.cls_idx] ++ readRef h r ++ [c.sep_idx]])
      h.length = [c.cls_idx] ++ readRef h r ++ [c.sep_idx] :=
    readRef_append_self _ _
  rw [show callRow c h r =
    padHeap c (h ++ [[c.cls_idx] ++ readRef h r ++ [c.sep_idx]])
      h.length from rfl]
  unfold padHeap ClassificationBatchFunction.pad
  rw [hread]
  by_cases hcond : 0 < (c.max_len : ℤ) -
      (([c.cls_idx] ++ readRef h r ++ [c.sep_idx]).length : ℤ)
  · rw [if_pos hcond, if_pos hcond]
    refine ⟨?_, ?_, ?_, ?_⟩
    · exact readRef_writeRef_self _ _ _ (by simp)
    · intro i hi
      rw [readRef_writeRef_ne _ _ _ _ (by omega),
        readRef_append_left _ _ _ hi]
    · simp [writeRef]
    · simp [writeRef]
  · rw [if_neg hcond, if_neg hcond]
    unfold alloc
    refine ⟨?_, ?_, ?_, ?_⟩
    · exact readRef_append_self _ _
    · intro i hi
      rw [readRef_append_left _ _ _ (by simp; omega),
        readRef_append_left _ _ _ hi]
    · simp
    · simp

/-- All collator rows over valid token references: the produced row objects
hold exactly the value-level padded rows of the current token values, all
pre-existing objects are untouched, and the heap only grows. -/
theorem callRows_spec (c : ClassificationBatchFunction) (refs : List ℕ)
    (h : Heap) (hv : ∀ r ∈ refs, r < h.length) :
    (callRows c h refs).2.map (readRef (callRows c h refs).1) =
      refs.map (fun r => c.pad ([c.cls_idx] ++ readRef h r ++ [c.sep_idx])) ∧
    (∀ i, i < h.length → readRef (callRows c h refs).1 i = readRef h i) ∧
    h.length ≤ (callRows c h refs).1.length := by
  induction refs generalizing h with
  | nil => exact ⟨rfl, fun i _ => rfl, le_refl _⟩
  | cons r rs ih =>
    obtain ⟨hval, hpres, hlen, hout⟩ := callRow_spec c h r (hv r (by simp))
    have hv2 : ∀ x ∈ rs, x < (callRow c h r).1.length :=
      fun x hx => lt_trans (hv x (by simp [hx])) hlen
    obtain ⟨ihval, ihpres, ihlen⟩ := ih (callRow c h r).1 hv2
    rw [show callRows c h (r :: rs) =
      ((callRows c (callRow c h r).1 rs).1,
        (callRow c h r).2 :: (callRows c (callRow c h r).1 rs).2) from rfl]
    refine ⟨?_, ?_, ?_⟩
    · rw [List.map_cons, List.map_cons]
      congr 1
      · rw [ihpres _ hout]
        exact hval
      · rw [ihval]
        apply List.map_congr_left
        intro x hx
        rw [hpres x (hv x (by simp [hx]))]
    · intro i hi
      rw [ihpres i (lt_trans hi hlen), hpres i hi]
    · exact le_trans (le_of_lt hlen) ihlen

/-! ## C8: collator idempotence and non-mutation -/

/-- C8: for every batch of valid token references, calling the collator a
second time on the same batch in the same order produces exactly the same
(token, mask, label) tensors as the first call, and the first call does not
mutate any input token sequence: every batch reference reads the same value
after the call as before it. -/
theorem c8_collate_idempotent_no_mutation (c : ClassificationBatchFunction)
    (h : Heap) (refs : List ℕ) (label : List ℤ)
    (hv : ∀ r ∈ refs, r < h.length) :
    (collateOutputs c (collateOutputs c h refs label).2 refs label).1 =
      (collateOutputs c h refs label).1 ∧
    (∀ r ∈ refs, readRef (collateOutputs c h refs label).2 r = readRef h r) := by
  obtain ⟨hval, hpres, hlen⟩ := callRows_spec c refs h hv
  have hv2 : ∀ r ∈ refs, r < (callRows c h refs).1.length :=
    fun r hr => lt_of_lt_of_le (hv r hr) hlen
  obtain ⟨hval2, hpres2, hlen2⟩ := callRows_spec c refs (callRows c h refs).1 hv2
  have hrows : (callRows c (callRows c h refs).1 refs).2.map
      (readRef (callRows c (callRows c h refs).1 refs).1) =
      (callRows c h refs).2.map (readRef (callRows c h refs).1) := by
    rw [hval2, hval]
    apply List.map_congr_left
    intro r hr
    rw [hpres r (hv r hr)]
  constructor
  · show ((callRows c (callRows c h refs).1 refs).2.map
        (readRef (callRows c (callRows c h refs).1 refs).1),
      ((callRows c (callRows c h refs).1 refs).2.map
        (readRef (callRows c (callRows c h refs).1 refs).1)).map (maskOf c),
      label) =
      ((callRows c h refs).2.map (readRef (callRows c h refs).1),
      ((callRows c h refs).2.map (readRef (callRows c h refs).1)).map (maskOf c),
      label)
    rw [hrows]
  · intro r hr
    exact hpres r (hv r hr)

/-- C8 witness: the scenario batch, stored on the heap at references 0 and
1: collating twice yields the same tensors and the stored token lists are
unchanged. -/
theorem c8_witness :
    (∀ r ∈ [0, 1], r < ([[5, 6, 7], [8, 9]] : Heap).length) ∧
    ((collateOutputs ⟨6, 0, 1, 2⟩
        (collateOutputs ⟨6, 0, 1, 2⟩ [[5, 6, 7], [8, 9]] [0, 1] [0, 1]).2
        [0, 1] [0, 1]).1 =
      (collateOutputs ⟨6, 0, 1, 2⟩ [[5, 6, 7], [8, 9]] [0, 1] [0, 1]).1 ∧
    (∀ r ∈ [0, 1],
      readRef (collateOutputs ⟨6, 0, 1, 2⟩ [[5, 6, 7], [8, 9]]
        [0, 1] [0, 1]).2 r = readRef [[5, 6, 7], [8, 9]] r)) :=
  ⟨by decide,
    c8_collate_idempotent_no_mutation ⟨6, 0, 1, 2⟩ [[5, 6, 7], [8, 9]]
      [0, 1] [0, 1] (by decide)⟩

end BertClassification
